import Mathlib

/-!
Verification of the PyKOALA data-reduction toolkit: shallow embedding of the
wavelength-offset, flux-calibration and ancillary interpolation routines,
together with theorems settling the specification claims.

Numpy arrays are modelled as Lean lists (1D) or lists of lists (2D); rational
arithmetic stands for the exact real arithmetic of the float operations that
involve only field operations, and `Real` is used where `exp` or real powers
appear.  Python exceptions are modelled by an explicit error type.
-/

namespace PyKoala

/-- Python exceptions raised by the modelled code paths. -/
inductive PyExc where
  | indexError
  | fileNotFoundError
  | runtimeError
  | fitError
  | calibrationError
  | attributeError
  | nameError
  deriving DecidableEq

/-- A float value as stored in the modelled numpy arrays: either an exact
numeric value or the IEEE NaN marker (`np.nan`). -/
inductive PyVal where
  | num (x : ℝ)
  | nan

section NumpyOps

variable {α : Type*} [LinearOrderedField α]

/-- Model of `np.diff`: consecutive differences, `(np.diff l)[i] = l[i+1] - l[i]`. -/
def npDiff (l : List α) : List α :=
  (l.zip l.tail).map fun p => p.2 - p.1

/-- Elementwise product of two numpy arrays of equal length. -/
def elemMul (a b : List α) : List α :=
  (a.zip b).map fun p => p.1 * p.2

/-- Elementwise quotient of two numpy arrays of equal length. -/
def elemDiv (a b : List α) : List α :=
  (a.zip b).map fun p => p.1 / p.2

/-- Bin edges of a wavelength grid, as built identically in
`flux_conserving_interpolation` (ancillary.py) and `get_response_curve`
(flux_calibration.py): `np.hstack((w[0] - d[0]/2, w[:-1] + d/2, w[-1] + d[-1]/2))`
with `d = np.diff(w)`. -/
def waveEdges (w : List α) : List α :=
  (w.headD 0 - (npDiff w).headD 0 / 2) ::
    ((w.dropLast.zip (npDiff w)).map fun p => p.1 + p.2 / 2) ++
      [w.getLastD 0 + (npDiff w).getLastD 0 / 2]

/-- Model of `np.cumsum`: running sums, `(np.cumsum l)[i] = l[0] + ... + l[i]`. -/
def npCumsum (l : List α) : List α :=
  (l.scanl (· + ·) 0).tail

/-- Model of `np.hstack((0, np.nancumsum l))` for NaN-free `l`: running sums with a
leading zero, as built in `flux_conserving_interpolation`. -/
def npCumsum0 (l : List α) : List α :=
  l.scanl (· + ·) 0

/-- Core of `np.interp` over a list of `(x, y)` sample points with strictly
increasing abscissae: clamp below the first point and above the last point,
linear interpolation in between. -/
def interpPts (x : α) : List (α × α) → α
  | [] => 0
  | [p] => p.2
  | p :: q :: rest =>
    if x ≤ p.1 then p.2
    else if x ≤ q.1 then p.2 + (q.2 - p.2) * (x - p.1) / (q.1 - p.1)
    else interpPts x (q :: rest)

/-- Model of `np.interp x xp fp` for strictly increasing `xp`. -/
def npInterp (x : α) (xp fp : List α) : α :=
  interpPts x (xp.zip fp)

/-- Model of `scipy.interpolate.interp1d(xp, fp, fill_value=0, bounds_error=False)`
evaluated at `x`: zero outside the sampled range, linear interpolation inside. -/
def interp1dAt (xp fp : List α) (x : α) : α :=
  if x < xp.headD 0 ∨ xp.getLastD 0 < x then 0 else interpPts x (xp.zip fp)

/-- Embedding of `koala.ancillary.flux_conserving_interpolation`: cumulative-flux resampling
of `spectra` from the grid `wavelength` onto `new_wavelength`. -/
def flux_conserving_interpolation (new_wavelength wavelength spectra : List α) : List α :=
  let wavelength_edges := waveEdges wavelength
  let new_wavelength_edges := waveEdges new_wavelength
  let cum_spectra := npCumsum0 (elemMul (npDiff wavelength_edges) spectra)
  let new_cum_spectra := new_wavelength_edges.map fun x => npInterp x wavelength_edges cum_spectra
  elemDiv (npDiff new_cum_spectra) (npDiff new_wavelength_edges)

/-- Total flux of a spectrum on a wavelength grid: `sum(spectra * bin_width)`
with the bin widths given by the grid's edge differences. -/
def totalFlux (spectra w : List α) : α :=
  (elemMul spectra (npDiff (waveEdges w))).sum

/-- Embedding of `FluxCalibration.get_response_curve` with `pol_deg=None`,
`gauss_smooth_sigma=None`, `mask_absorption=False`: the linear-interpolation
branch.  It builds the cumulative response `np.cumsum(obs/ref * diff(edges))`,
inserts the extrapolated leading element
`cum[0] - (cum[1] - cum[0])/2`, differentiates against the edge widths and
returns the `interp1d` interpolator of the result. -/
def get_response_curve_linear (wave obs_spectra ref_spectra : List α) : α → α :=
  let wave_edges := waveEdges wave
  let cum_response := npCumsum (elemMul (elemDiv obs_spectra ref_spectra) (npDiff wave_edges))
  let cum2 := (cum_response.headD 0 - (cum_response.getD 1 0 - cum_response.headD 0) / 2)
      :: cum_response
  let r := elemDiv (npDiff cum2) (npDiff wave_edges)
  interp1dAt wave r

end NumpyOps

/-! ## Correction bookkeeping

`CorrectionBase` (with `is_corrected`, `log_correction` and
`record_correction`) lives in the correction-base module that is not part of
the analysed sources; only its use sites are.  Modelled from the spec: a data
container keeps the list of corrections applied to it, `is_corrected` tests
membership of a correction name in that list, and recording a correction
appends its name. -/

def fluxCalibrationName : String := "FluxCalibration"

def wavelengthCorrectionName : String := "WavelengthCorrection"

def atmosphericExtName : String := "AtmosphericExtinction"

/-- The `koala`-era data container as used by `FluxCalibration.apply`: the leading
axis of `intensity_corrected`/`variance_corrected` is the wavelength axis and
the trailing axes are flattened into one. -/
structure KDataContainer where
  wavelength : List ℚ
  intensity_corrected : List (List ℚ)
  variance_corrected : List (List ℚ)
  corrections : List String

/-- Modelled from the spec: `DataContainer.is_corrected` checks whether the
named correction has already been applied to the container. -/
def KDataContainer.is_corrected (dc : KDataContainer) (corrName : String) : Bool :=
  dc.corrections.contains corrName

/-- Embedding of `FluxCalibration.apply`: raise `CalibrationError` on an
already-calibrated container, otherwise divide the intensity by the response
(expanded over the trailing axes), the variance by the squared response, and
record the correction.  The returned pair is the container state after the
call together with the exception raised, if any. -/
def FluxCalibration.apply (response : List ℚ) (dc : KDataContainer) :
    KDataContainer × Option PyExc :=
  if dc.is_corrected fluxCalibrationName then
    (dc, some PyExc.calibrationError)
  else
    ({ dc with
        intensity_corrected :=
          (dc.intensity_corrected.zip response).map fun p => p.1.map (· / p.2),
        variance_corrected :=
          (dc.variance_corrected.zip response).map fun p => p.1.map (· / p.2 ^ 2),
        corrections := dc.corrections ++ [fluxCalibrationName] },
      none)

/-- The `pykoala` row-stacked-spectra container: `intensity`/`variance` rows are
fibres, columns are wavelengths. -/
structure PRSS where
  wavelength : List ℚ
  intensity : List (List ℚ)
  variance : List (List ℚ)
  corrections : List String

/-- Pixel index array `np.arange(wavelength.size)` as rationals. -/
def pixArange (n : ℕ) : List ℚ :=
  (List.range n).map fun i : ℕ => (i : ℚ)

/-- Embedding of `WavelengthCorrection.apply`: every fibre's intensity is replaced by the
flux-conserving interpolation of that fibre evaluated on the pixel grid
shifted by the fibre's offset; the correction is then recorded. -/
def WavelengthCorrection.apply (offset_data : List ℚ) (rss : PRSS) : PRSS :=
  let x := pixArange rss.wavelength.length
  { rss with
    intensity := (rss.intensity.zip offset_data).map fun p =>
      flux_conserving_interpolation x (x.map fun t => t - p.2) p.1,
    corrections := rss.corrections ++ [wavelengthCorrectionName] }

/-- The `pykoala` spectra container as consumed by `AtmosphericExtCorrection`:
`rss_intensity`/`rss_variance` rows are fibres, columns are wavelengths. -/
structure AtmSpectraContainer where
  wavelength : List ℝ
  rss_intensity : List (List ℝ)
  rss_variance : List (List ℝ)
  airmass : ℝ
  corrections : List String

/-- Atmospheric extinction correction state: the extinction curve and its
wavelength array. -/
structure AtmosphericExtCorrectionModel where
  extinction_correction : Option (List ℝ)
  extinction_correction_wave : List ℝ

/-- Embedding of `AtmosphericExtCorrection.extinction`: interpolate the extinction curve to
the requested wavelengths and return `10 ** (0.4 * airmass * eta)`. -/
noncomputable def AtmosphericExtCorrection.extinction (curve_wave curve : List ℝ)
    (wavelength : List ℝ) (airmass : ℝ) : List ℝ :=
  wavelength.map fun w => (10 : ℝ) ^ (0.4 * airmass * npInterp w curve_wave curve)

/-- Embedding of `AtmosphericExtCorrection.apply`: raise `AttributeError` when no
extinction curve is stored; otherwise multiply every fibre's intensity by the
extinction (broadcast along the fibre axis), the variance by its square, and
record the correction on a copy of the container. -/
noncomputable def AtmosphericExtCorrection.apply (corr : AtmosphericExtCorrectionModel)
    (sc : AtmSpectraContainer) (airmass_arg : Option ℝ) :
    Except PyExc AtmSpectraContainer :=
  let airmass := airmass_arg.getD sc.airmass
  match corr.extinction_correction with
  | none => Except.error PyExc.attributeError
  | some curve =>
    let ext := AtmosphericExtCorrection.extinction corr.extinction_correction_wave curve
        sc.wavelength airmass
    Except.ok { sc with
      rss_intensity := sc.rss_intensity.map fun row => elemMul row ext,
      rss_variance := sc.rss_variance.map fun row => elemMul row (elemMul ext ext),
      corrections := sc.corrections ++ [atmosphericExtName] }

/-! ## WavelengthOffset FITS round trip -/

/-- A FITS header-data unit: extension name plus optional image data. -/
structure HDU where
  extname : String
  data : Option (List PyVal)

/-- Model of `astropy.io.fits.PrimaryHDU()`: the empty primary HDU. -/
def primaryHDU : HDU :=
  { extname := "PRIMARY", data := none }

def offsetHduName : String := "OFFSET"

def offsetErrHduName : String := "OFFSET_ERR"

/-- In-memory wavelength-offset object: per-fibre offsets and errors plus the
originating file path. -/
structure WavelengthOffsetModel where
  path : Option String
  offset_data : Option (List PyVal)
  offset_error : Option (List PyVal)

/-- Embedding of `WavelengthOffset.tofits`: raise `NameError` when no output path can be
determined, otherwise write `[PrimaryHDU, ImageHDU("OFFSET"),
ImageHDU("OFFSET_ERR")]`; the written FITS file is modelled as its HDU list. -/
def WavelengthOffset.tofits (o : WavelengthOffsetModel) (output_path : Option String) :
    Except PyExc (List HDU) :=
  match output_path, o.path with
  | none, none => Except.error PyExc.nameError
  | _, _ =>
    Except.ok [primaryHDU,
      { extname := offsetHduName, data := o.offset_data },
      { extname := offsetErrHduName, data := o.offset_error }]

/-- Embedding of `WavelengthOffset.from_fits`: read offset data from extension 1 and the
associated error from extension 2 of the FITS file. -/
def WavelengthOffset.from_fits (hdul : List HDU) (path : String) : WavelengthOffsetModel :=
  { path := some path,
    offset_data := (hdul.getD 1 primaryHDU).data,
    offset_error := (hdul.getD 2 primaryHDU).data }

/-! ## SolarCrossCorrOffset.compute_shift_from_twilight

The stage of `compute_shift_from_twilight` that the claims address starts from
the chi-square grid `all_chi2` of shape
`(pix_shift_array.size, pix_std_array.size, n_fibres)` (the filters and model
grids that produce it are taken as the input).  Grid sizes are kept positive
by construction (`ns + 1`, `nm + 1`, `nf + 1`). -/

section SolarShift

variable {ns nm nf : ℕ}

/-- Model of `all_chi2.min()`: global minimum over the whole chi-square grid. -/
noncomputable def chi2Min (chi2 : Fin (ns + 1) → Fin (nm + 1) → Fin (nf + 1) → ℝ) : ℝ :=
  Finset.univ.inf' Finset.univ_nonempty
    (fun p : Fin (ns + 1) × Fin (nm + 1) × Fin (nf + 1) => chi2 p.1 p.2.1 p.2.2)

/-- The normalised likelihood grid:
`np.exp(-(all_chi2 - all_chi2.min())/2)` divided, fibre by fibre, by its sum
over the whole `(shift, width)` grid. -/
noncomputable def likelihood (chi2 : Fin (ns + 1) → Fin (nm + 1) → Fin (nf + 1) → ℝ)
    (i : Fin (ns + 1)) (j : Fin (nm + 1)) (f : Fin (nf + 1)) : ℝ :=
  Real.exp (-(chi2 i j f - chi2Min chi2) / 2) /
    ∑ a, ∑ b, Real.exp (-(chi2 a b f - chi2Min chi2) / 2)

/-- First component of `np.unravel_index` for a row-major `(a+1) × (b+1)`
grid. -/
def unravelFst {a b : ℕ} (k : Fin ((a + 1) * (b + 1))) : Fin (a + 1) :=
  ⟨(k : ℕ) / (b + 1), (Nat.div_lt_iff_lt_mul (Nat.succ_pos b)).mpr k.isLt⟩

/-- Second component of `np.unravel_index` for a row-major `(a+1) × (b+1)`
grid. -/
def unravelSnd {a b : ℕ} (k : Fin ((a + 1) * (b + 1))) : Fin (b + 1) :=
  ⟨(k : ℕ) % (b + 1), Nat.mod_lt _ (Nat.succ_pos b)⟩

section ClassicalArgmax

open scoped Classical

/-- Model of `np.argmax` over a non-empty vector: the first index attaining the
maximum value. -/
noncomputable def npArgmax {n : ℕ} (hn : 0 < n) (v : Fin n → ℝ) : Fin n :=
  (Finset.univ.filter fun k => ∀ j, v j ≤ v k).min' (by
    obtain ⟨k, -, hk⟩ := Finset.exists_max_image Finset.univ v ⟨⟨0, hn⟩, Finset.mem_univ _⟩
    exact ⟨k, Finset.mem_filter.mpr ⟨Finset.mem_univ k, fun j => hk j (Finset.mem_univ j)⟩⟩)

end ClassicalArgmax

/-- Model of `likelihood.reshape((-1, n_fibres))` for fibre `f`: the row-major
flattening of the `(shift, width)` grid. -/
noncomputable def flatLikelihood (chi2 : Fin (ns + 1) → Fin (nm + 1) → Fin (nf + 1) → ℝ)
    (f : Fin (nf + 1)) (k : Fin ((ns + 1) * (nm + 1))) : ℝ :=
  likelihood chi2 (unravelFst k) (unravelSnd k) f

/-- The `best_vel_idx` value: shift-grid index of the per-fibre likelihood argmax. -/
noncomputable def bestVelIdx (chi2 : Fin (ns + 1) → Fin (nm + 1) → Fin (nf + 1) → ℝ)
    (f : Fin (nf + 1)) : Fin (ns + 1) :=
  unravelFst (npArgmax (Nat.mul_pos (Nat.succ_pos ns) (Nat.succ_pos nm)) (flatLikelihood chi2 f))

/-- The `best_std_idx` value: width-grid index of the per-fibre likelihood argmax. -/
noncomputable def bestStdIdx (chi2 : Fin (ns + 1) → Fin (nm + 1) → Fin (nf + 1) → ℝ)
    (f : Fin (nf + 1)) : Fin (nm + 1) :=
  unravelSnd (npArgmax (Nat.mul_pos (Nat.succ_pos ns) (Nat.succ_pos nm)) (flatLikelihood chi2 f))

/-- The `mean_pix_shift` value: likelihood-weighted mean of `pix_shift_array`,
`np.sum(likelihood.sum(axis=1) * pix_shift_array[:, np.newaxis], axis=0)`. -/
noncomputable def meanPixShift (chi2 : Fin (ns + 1) → Fin (nm + 1) → Fin (nf + 1) → ℝ)
    (pix_shift : Fin (ns + 1) → ℝ) (f : Fin (nf + 1)) : ℝ :=
  ∑ i, (∑ j, likelihood chi2 i j f) * pix_shift i

/-- The `best_shift` value: per-fibre `pix_shift_array[best_vel_idx]`. -/
noncomputable def bestShiftArr (chi2 : Fin (ns + 1) → Fin (nm + 1) → Fin (nf + 1) → ℝ)
    (pix_shift : Fin (ns + 1) → ℝ) : List ℝ :=
  List.ofFn fun f => pix_shift (bestVelIdx chi2 f)

/-- Model of `np.full_like(l, fill_value=np.nan)`. -/
def npFullLikeNan (l : List ℝ) : List PyVal :=
  l.map fun _ => PyVal.nan

/-- The state of `self.offset` after `compute_shift_from_twilight` returns. -/
structure ShiftResult where
  offset_data : List ℝ
  offset_error : List PyVal

/-- Tail of `SolarCrossCorrOffset.compute_shift_from_twilight`: from the
chi-square grid, build the per-fibre offsets (negated mean likelihood-weighted
shift when `use_mean`, negated best-fit shift otherwise) and the offset error
`np.full_like(best_shift, np.nan)`. -/
noncomputable def compute_shift_from_twilight
    (chi2 : Fin (ns + 1) → Fin (nm + 1) → Fin (nf + 1) → ℝ)
    (pix_shift : Fin (ns + 1) → ℝ) (use_mean : Bool) : ShiftResult :=
  { offset_data :=
      if use_mean then List.ofFn fun f => -(meanPixShift chi2 pix_shift f)
      else List.ofFn fun f => -(pix_shift (bestVelIdx chi2 f)),
    offset_error := npFullLikeNan (bestShiftArr chi2 pix_shift) }

end SolarShift

/-! ## Calibration-star name normalisation -/

/-- Python `str.lower` over the characters of the name. -/
def pyLower (s : List Char) : List Char :=
  s.map Char.toLower

def feigeChars : List Char := ['f', 'e', 'i', 'g', 'e']

/-- Whether `pat` is an initial segment of the second list. -/
def listStarts : List Char → List Char → Bool
  | [], _ => true
  | _ :: _, [] => false
  | p :: ps, c :: cs => p == c && listStarts ps cs

/-- Python substring test `pat in s` for non-empty `pat`. -/
def hasSub (pat : List Char) : List Char → Bool
  | [] => false
  | c :: rest => listStarts pat (c :: rest) || hasSub pat rest

/-- Name normalisation of `FluxCalibration.read_calibration_star`: lowercase
the name, then evaluate `name[0] != 'f' or 'feige' in name` (raising
`IndexError` on the empty name, as Python does for `name[0]`) and prepend
`'f'` when the condition holds. -/
def normalize_star_name (s : List Char) : Except PyExc (List Char) :=
  match pyLower s with
  | [] => Except.error PyExc.indexError
  | c :: rest =>
    if c != ('f') || hasSub feigeChars (c :: rest) then
      Except.ok (('f') :: c :: rest)
    else
      Except.ok (c :: rest)

/-- Embedding of the `FluxCalibration.read_calibration_star` lookup step: normalise the name
and search it among the available star names (`list_available_stars` is
filesystem-backed and enters as the parameter `avail`); raise
`FileNotFoundError` when nothing matches. -/
def read_calibration_star (avail : List (List Char)) (s : List Char) :
    Except PyExc (List Char) :=
  match normalize_star_name s with
  | Except.error e => Except.error e
  | Except.ok key => if key ∈ avail then Except.ok key
      else Except.error PyExc.fileNotFoundError

/-- The lookup key as described by the specification claim: the lowercased
name with `'f'` prepended whenever the lowercased name does not start with
`'f'` or contains the substring `'feige'`. -/
def specStarKey (s : List Char) : List Char :=
  let l := pyLower s
  if !listStarts ['f'] l || hasSub feigeChars l then ('f') :: l else l

/-! ## extract_stellar_flux chunk fitting -/

/-- The `try/except FitError` wrapper around the per-chunk
`scipy.optimize.curve_fit` call in `FluxCalibration.extract_stellar_flux`:
an escaping `FitError` is re-raised as `FitError()`, any other outcome passes
through unchanged. -/
def fitChunkEscaping {β : Type*} (fit_outcome : Except PyExc β) : Except PyExc β :=
  match fit_outcome with
  | Except.ok p => Except.ok p
  | Except.error e =>
    if e = PyExc.fitError then Except.error PyExc.fitError else Except.error e

/-- Outcome of a `scipy.optimize.curve_fit` call that fails to converge: scipy
signals non-convergence by raising `RuntimeError` (external library
contract). -/
def curveFitNonConvergence {β : Type*} : Except PyExc β :=
  Except.error PyExc.runtimeError

/-! ## List-level lemmas about the numpy operations -/

section NumpyLemmas

variable {α : Type*} [LinearOrderedField α]

theorem headD_eq_get {β : Type*} (l : List β) (hl : l ≠ []) (d : β) :
    l.headD d = l.get ⟨0, List.length_pos.mpr hl⟩ := by
  cases l with
  | nil => exact absurd rfl hl
  | cons a t => rfl

theorem getLastD_eq_get {β : Type*} (l : List β) (hl : l ≠ []) (d : β) :
    l.getLastD d = l.get ⟨l.length - 1, by
      have := List.length_pos.mpr hl
      omega⟩ := by
  induction l generalizing d with
  | nil => exact absurd rfl hl
  | cons a t ih =>
    cases t with
    | nil => rfl
    | cons b t2 =>
      rw [List.getLastD_cons, ih (List.cons_ne_nil b t2) a]
      simp

theorem npDiff_length (l : List α) : (npDiff l).length = l.length - 1 := by
  simp [npDiff, List.length_zip]

theorem npDiff_get (l : List α) (i : ℕ) (hi : i < (npDiff l).length)
    (h1 : i + 1 < l.length) (h0 : i < l.length) :
    (npDiff l).get ⟨i, hi⟩ = l.get ⟨i + 1, h1⟩ - l.get ⟨i, h0⟩ := by
  simp [npDiff, List.get_eq_getElem, List.getElem_map, List.getElem_zip, List.getElem_tail]

theorem npDiff_cons_cons (a b : α) (l : List α) :
    npDiff (a :: b :: l) = (b - a) :: npDiff (b :: l) := rfl

theorem elemMul_length (a b : List α) : (elemMul a b).length = min a.length b.length := by
  simp [elemMul, List.length_zip]

theorem elemMul_get (a b : List α) (i : ℕ) (hi : i < (elemMul a b).length)
    (ha : i < a.length) (hb : i < b.length) :
    (elemMul a b).get ⟨i, hi⟩ = a.get ⟨i, ha⟩ * b.get ⟨i, hb⟩ := by
  simp [elemMul, List.get_eq_getElem, List.getElem_map, List.getElem_zip]

theorem elemDiv_length (a b : List α) : (elemDiv a b).length = min a.length b.length := by
  simp [elemDiv, List.length_zip]

theorem elemDiv_get (a b : List α) (i : ℕ) (hi : i < (elemDiv a b).length)
    (ha : i < a.length) (hb : i < b.length) :
    (elemDiv a b).get ⟨i, hi⟩ = a.get ⟨i, ha⟩ / b.get ⟨i, hb⟩ := by
  simp [elemDiv, List.get_eq_getElem, List.getElem_map, List.getElem_zip]

theorem elemMul_comm (a b : List α) : elemMul a b = elemMul b a := by
  apply List.ext_get
  · simp [elemMul_length]; omega
  · intro n h1 h2
    have hna : n < a.length := by simp [elemMul_length] at h1; omega
    have hnb : n < b.length := by simp [elemMul_length] at h1; omega
    rw [elemMul_get a b n (by assumption) hna hnb, elemMul_get b a n (by assumption) hnb hna]
    exact mul_comm _ _

theorem scanl_add_get (l : List α) (a : α) (i : ℕ)
    (hi : i < (l.scanl (· + ·) a).length) (h : i < l.length + 1) :
    (l.scanl (· + ·) a).get ⟨i, hi⟩ = a + (l.take i).sum := by
  induction l generalizing a i with
  | nil =>
    simp only [List.length_nil] at h
    obtain rfl : i = 0 := by omega
    simp [List.scanl]
  | cons x xs ih =>
    cases i with
    | zero => simp [List.scanl]
    | succ i' =>
      have h' : i' < xs.length + 1 := by simpa using h
      have hi' : i' < (xs.scanl (· + ·) (a + x)).length := by
        rw [List.length_scanl]; omega
      have := ih (a + x) i' hi' h'
      simp only [List.scanl_cons, List.singleton_append, List.get_eq_getElem,
        List.getElem_cons_succ] at this ⊢
      rw [this, List.take_succ_cons, List.sum_cons]
      ring

theorem npCumsum0_length (l : List α) : (npCumsum0 l).length = l.length + 1 :=
  List.length_scanl _ _

theorem npCumsum0_get (l : List α) (i : ℕ) (hi : i < (npCumsum0 l).length)
    (h : i < l.length + 1) :
    (npCumsum0 l).get ⟨i, hi⟩ = (l.take i).sum := by
  have := scanl_add_get l 0 i (by simpa [npCumsum0] using hi) h
  simpa [npCumsum0] using this

theorem npCumsum_length (l : List α) : (npCumsum l).length = l.length := by
  simp [npCumsum, List.length_scanl]

theorem npCumsum_get (l : List α) (i : ℕ) (hi : i < (npCumsum l).length)
    (h : i < l.length) :
    (npCumsum l).get ⟨i, hi⟩ = (l.take (i + 1)).sum := by
  have h2 : i + 1 < l.length + 1 := by omega
  have hi2 : i + 1 < (l.scanl (· + ·) 0).length := by rw [List.length_scanl]; omega
  have := scanl_add_get l 0 (i + 1) hi2 h2
  simp only [npCumsum, List.get_eq_getElem, List.getElem_tail]
  simp only [List.get_eq_getElem] at this
  rw [this]
  ring

theorem npDiff_sum (l : List α) : (npDiff l).sum = l.getLastD 0 - l.headD 0 := by
  induction l with
  | nil => simp [npDiff]
  | cons a t ih =>
    cases t with
    | nil => simp [npDiff]
    | cons b t2 =>
      rw [npDiff_cons_cons, List.sum_cons, ih]
      have hne : (b :: t2) ≠ [] := List.cons_ne_nil b t2
      have h1 : (a :: b :: t2).getLastD 0 = (b :: t2).getLastD 0 := by
        rw [List.getLastD_cons, getLastD_eq_get (b :: t2) hne a,
          getLastD_eq_get (b :: t2) hne 0]
      rw [h1]
      simp only [List.headD]
      ring

theorem getLastD_eq_get_of {β : Type*} (l : List β) (hl : l ≠ []) (d : β) (n : ℕ)
    (hn : n + 1 = l.length) (hb : n < l.length) :
    l.getLastD d = l.get ⟨n, hb⟩ := by
  rw [getLastD_eq_get l hl d]
  exact congrArg l.get (Fin.ext (show l.length - 1 = n by omega))

theorem waveEdges_ne_nil (w : List α) : waveEdges w ≠ [] := by
  apply List.ne_nil_of_length_pos
  simp only [waveEdges, List.length_append, List.length_cons, List.length_singleton,
    List.length_nil]
  omega

theorem waveEdges_length (w : List α) (hw : w ≠ []) :
    (waveEdges w).length = w.length + 1 := by
  have h1 : 0 < w.length := List.length_pos.mpr hw
  simp only [waveEdges, List.length_append, List.length_cons, List.length_map,
    List.length_zip, List.length_dropLast, npDiff_length, List.length_singleton,
    List.length_nil]
  omega

theorem waveEdges_headD (w : List α) :
    (waveEdges w).headD 0 = w.headD 0 - (npDiff w).headD 0 / 2 := rfl

theorem waveEdges_getLastD (w : List α) :
    (waveEdges w).getLastD 0 = w.getLastD 0 + (npDiff w).getLastD 0 / 2 := by
  simp only [waveEdges, List.getLastD_cons]
  induction (w.dropLast.zip (npDiff w)).map (fun p : α × α => p.1 + p.2 / 2) with
  | nil => rfl
  | cons a t ih =>
    rw [List.cons_append, List.getLastD_cons]
    cases t with
    | nil => rfl
    | cons b t2 => simpa using ih

theorem waveEdges_get_zero (w : List α) (h2 : 2 ≤ w.length)
    (h0 : 0 < (waveEdges w).length) :
    (waveEdges w).get ⟨0, h0⟩ =
      w.get ⟨0, by omega⟩ - (w.get ⟨1, h2⟩ - w.get ⟨0, by omega⟩) / 2 := by
  have hw : w ≠ [] := by rw [← List.length_pos]; omega
  have hd : npDiff w ≠ [] := by rw [← List.length_pos, npDiff_length]; omega
  have hd0 : 0 < (npDiff w).length := by rw [npDiff_length]; omega
  have hhead : (waveEdges w).get ⟨0, h0⟩ = (waveEdges w).headD 0 :=
    (headD_eq_get (waveEdges w) (waveEdges_ne_nil w) 0).symm
  rw [hhead, waveEdges_headD, headD_eq_get w hw 0, headD_eq_get (npDiff w) hd 0,
    npDiff_get w 0 hd0 h2 (by omega)]

theorem waveEdges_get_succ_mid (w : List α) (i : ℕ) (h1 : i + 1 < w.length)
    (hb : i + 1 < (waveEdges w).length) :
    (waveEdges w).get ⟨i + 1, hb⟩ = (w.get ⟨i, by omega⟩ + w.get ⟨i + 1, h1⟩) / 2 := by
  have hmid : i < ((w.dropLast.zip (npDiff w)).map fun p : α × α => p.1 + p.2 / 2).length := by
    simp only [List.length_map, List.length_zip, List.length_dropLast, npDiff_length]
    omega
  have hcons : i + 1 <
      ((w.headD 0 - (npDiff w).headD 0 / 2) ::
        (w.dropLast.zip (npDiff w)).map (fun p : α × α => p.1 + p.2 / 2)).length := by
    simp only [List.length_cons, List.length_map, List.length_zip, List.length_dropLast,
      npDiff_length]
    omega
  simp only [waveEdges, List.get_eq_getElem]
  rw [List.getElem_append_left hcons, List.getElem_cons_succ]
  simp only [List.getElem_map, List.getElem_zip, List.getElem_dropLast]
  have hdg := npDiff_get w i (by rw [npDiff_length]; omega) h1 (by omega)
  simp only [List.get_eq_getElem] at hdg
  rw [hdg]
  ring

theorem waveEdges_get_last (w : List α) (hw : w ≠ []) (n : ℕ) (hn : n = w.length)
    (hb : n < (waveEdges w).length) :
    (waveEdges w).get ⟨n, hb⟩ = w.getLastD 0 + (npDiff w).getLastD 0 / 2 := by
  have h1 : (waveEdges w).get ⟨n, hb⟩ = (waveEdges w).getLastD 0 := by
    rw [getLastD_eq_get (waveEdges w) (waveEdges_ne_nil w) 0]
    refine congrArg (waveEdges w).get (Fin.ext ?_)
    have hlen := waveEdges_length w hw
    show n = (waveEdges w).length - 1
    omega
  rw [h1, waveEdges_getLastD]

theorem waveEdges_pairwise (w : List α) (h2 : 2 ≤ w.length)
    (hwp : w.Pairwise (· < ·)) : (waveEdges w).Pairwise (· < ·) := by
  have hw : w ≠ [] := by rw [← List.length_pos]; omega
  have hg := List.pairwise_iff_getElem.mp hwp
  rw [← List.chain'_iff_pairwise, List.chain'_iff_get]
  intro i hi
  rw [waveEdges_length w hw] at hi
  simp only [Nat.add_sub_cancel] at hi
  cases i with
  | zero =>
    rw [waveEdges_get_zero w h2, waveEdges_get_succ_mid w 0 (by omega)]
    have := hg 0 1 (by omega) (by omega) (by omega)
    simp only [List.get_eq_getElem]
    linarith
  | succ k =>
    by_cases hlast : k + 2 = w.length
    · rw [waveEdges_get_succ_mid w k (by omega),
        waveEdges_get_last w hw (k + 2) (by omega),
        getLastD_eq_get_of w hw 0 (k + 1) (by omega) (by omega),
        getLastD_eq_get_of (npDiff w) (by rw [← List.length_pos, npDiff_length]; omega) 0 k
          (by rw [npDiff_length]; omega) (by rw [npDiff_length]; omega),
        npDiff_get w k (by rw [npDiff_length]; omega) (by omega) (by omega)]
      have := hg k (k + 1) (by omega) (by omega) (by omega)
      simp only [List.get_eq_getElem]
      linarith
    · rw [waveEdges_get_succ_mid w k (by omega),
        waveEdges_get_succ_mid w (k + 1) (by omega)]
      have ha := hg k (k + 1) (by omega) (by omega) (by omega)
      have hb2 := hg (k + 1) (k + 2) (by omega) (by omega) (by omega)
      simp only [List.get_eq_getElem]
      linarith

theorem npDiff_pos (l : List α) (hl : l.Pairwise (· < ·)) :
    ∀ x ∈ npDiff l, 0 < x := by
  intro x hx
  rw [List.mem_iff_get] at hx
  obtain ⟨⟨i, hi⟩, rfl⟩ := hx
  have h1 : i + 1 < l.length := by
    have h := hi
    rw [npDiff_length] at h
    omega
  rw [npDiff_get l i hi h1 (by omega)]
  have := List.pairwise_iff_getElem.mp hl i (i + 1) (by omega) h1 (by omega)
  simp only [List.get_eq_getElem]
  linarith

theorem interpPts_node : ∀ (pts : List (α × α)),
    (pts.map Prod.fst).Pairwise (· < ·) → ∀ (k : ℕ) (hk : k < pts.length),
    interpPts (pts.get ⟨k, hk⟩).1 pts = (pts.get ⟨k, hk⟩).2 := by
  intro pts
  induction pts with
  | nil =>
    intro _ k hk
    simp at hk
  | cons p tl ih =>
    intro hmono k hk
    cases tl with
    | nil =>
      obtain rfl : k = 0 := by
        simp only [List.length_cons, List.length_nil] at hk
        omega
      simp [interpPts]
    | cons q rest =>
      rw [List.map_cons, List.pairwise_cons] at hmono
      obtain ⟨hp, hmono2⟩ := hmono
      cases k with
      | zero =>
        simp [interpPts]
      | succ k1 =>
        have hk' : k1 < (q :: rest).length := by
          simp only [List.length_cons] at hk ⊢
          omega
        have hget : (p :: q :: rest).get ⟨k1 + 1, hk⟩ = (q :: rest).get ⟨k1, hk'⟩ := by
          simp [List.get_eq_getElem]
        rw [hget]
        have hxmem : ((q :: rest).get ⟨k1, hk'⟩).1 ∈ (q :: rest).map Prod.fst :=
          List.mem_map_of_mem Prod.fst (List.get_mem _ _ _)
        have hpx : p.1 < ((q :: rest).get ⟨k1, hk'⟩).1 := hp _ hxmem
        cases k1 with
        | zero =>
          simp only [List.get_eq_getElem, List.getElem_cons_zero] at hpx ⊢
          simp only [interpPts]
          rw [if_neg (not_le.mpr hpx), if_pos le_rfl]
          have hne : q.1 - p.1 ≠ 0 := sub_ne_zero.mpr (ne_of_gt hpx)
          rw [mul_div_assoc, div_self hne, mul_one]
          ring
        | succ k2 =>
          have hk'' : k2 < rest.length := by
            simp only [List.length_cons] at hk'
            omega
          have hget2 : (q :: rest).get ⟨k2 + 1, hk'⟩ = rest.get ⟨k2, hk''⟩ := by
            simp [List.get_eq_getElem]
          rw [hget2] at hpx ⊢
          have hqmem : (rest.get ⟨k2, hk''⟩).1 ∈ rest.map Prod.fst :=
            List.mem_map_of_mem Prod.fst (List.get_mem _ _ _)
          have hmono3 := hmono2
          rw [List.map_cons, List.pairwise_cons] at hmono3
          have hqx : q.1 < (rest.get ⟨k2, hk''⟩).1 := hmono3.1 _ hqmem
          simp only [interpPts]
          rw [if_neg (not_le.mpr hpx), if_neg (not_le.mpr hqx)]
          have := ih hmono2 (k2 + 1) hk'
          rw [hget2] at this
          exact this

theorem npInterp_node (xp fp : List α) (hlen : xp.length = fp.length)
    (hmono : xp.Pairwise (· < ·)) (k : ℕ) (hk : k < xp.length) (hkf : k < fp.length) :
    npInterp (xp.get ⟨k, hk⟩) xp fp = fp.get ⟨k, hkf⟩ := by
  have hfst : (xp.zip fp).map Prod.fst = xp := List.map_fst_zip xp fp (le_of_eq hlen)
  have hkz : k < (xp.zip fp).length := by
    rw [List.length_zip]
    omega
  have hnode := interpPts_node (xp.zip fp) (by rw [hfst]; exact hmono) k hkz
  simp only [List.get_eq_getElem, List.getElem_zip] at hnode
  simpa [npInterp, List.get_eq_getElem] using hnode

theorem flux_conserving_interpolation_eq (nw w s : List α) :
    flux_conserving_interpolation nw w s =
      elemDiv
        (npDiff ((waveEdges nw).map fun x =>
          npInterp x (waveEdges w) (npCumsum0 (elemMul (npDiff (waveEdges w)) s))))
        (npDiff (waveEdges nw)) := rfl

theorem flux_conserving_interpolation_length (nw w s : List α) (hnw : nw ≠ []) :
    (flux_conserving_interpolation nw w s).length = nw.length := by
  rw [flux_conserving_interpolation_eq, elemDiv_length, npDiff_length, npDiff_length,
    List.length_map, waveEdges_length nw hnw]
  omega

theorem elemMul_elemDiv_cancel (a b : List α) (hlen : a.length = b.length)
    (hb : ∀ x ∈ b, x ≠ 0) : elemMul (elemDiv a b) b = a := by
  apply List.ext_get
  · rw [elemMul_length, elemDiv_length]
    omega
  · intro n h1 h2
    have hnb : n < b.length := by omega
    have hnd : n < (elemDiv a b).length := by
      rw [elemDiv_length]
      omega
    rw [elemMul_get _ _ n h1 hnd hnb, elemDiv_get a b n hnd h2 hnb]
    exact div_mul_cancel₀ _ (hb _ (List.get_mem _ _ _))

theorem cum_spectra_length (w s : List α) (hw : w ≠ []) (hs : s.length = w.length) :
    (npCumsum0 (elemMul (npDiff (waveEdges w)) s)).length = w.length + 1 := by
  rw [npCumsum0_length, elemMul_length, npDiff_length, waveEdges_length w hw]
  omega

theorem new_cum_eq_cum (w s : List α) (h2 : 2 ≤ w.length) (hw : w.Pairwise (· < ·))
    (hs : s.length = w.length) :
    ((waveEdges w).map fun x =>
        npInterp x (waveEdges w) (npCumsum0 (elemMul (npDiff (waveEdges w)) s))) =
      npCumsum0 (elemMul (npDiff (waveEdges w)) s) := by
  have hwne : w ≠ [] := by
    rw [← List.length_pos]
    omega
  have hel : (waveEdges w).length = w.length + 1 := waveEdges_length w hwne
  have hcl := cum_spectra_length w s hwne hs
  have hpw : (waveEdges w).Pairwise (· < ·) := waveEdges_pairwise w h2 hw
  apply List.ext_get
  · rw [List.length_map]
    omega
  · intro n h1 h2'
    have hn : n < (waveEdges w).length := by
      simpa using h1
    rw [List.get_eq_getElem, List.getElem_map]
    exact npInterp_node _ _ (by omega) hpw n hn h2'

theorem fci_self (w s : List α) (h2 : 2 ≤ w.length) (hw : w.Pairwise (· < ·))
    (hs : s.length = w.length) :
    flux_conserving_interpolation w w s = s := by
  have hwne : w ≠ [] := by
    rw [← List.length_pos]
    omega
  have hel : (waveEdges w).length = w.length + 1 := waveEdges_length w hwne
  have hcl := cum_spectra_length w s hwne hs
  have hpw : (waveEdges w).Pairwise (· < ·) := waveEdges_pairwise w h2 hw
  have hml : (elemMul (npDiff (waveEdges w)) s).length = w.length := by
    rw [elemMul_length, npDiff_length, hel]
    omega
  rw [flux_conserving_interpolation_eq, new_cum_eq_cum w s h2 hw hs]
  apply List.ext_get
  · rw [elemDiv_length, npDiff_length, npDiff_length, hcl, hel]
    omega
  · intro n h1 h2'
    have hn : n < w.length := by omega
    have hd1 : n < (npDiff (npCumsum0 (elemMul (npDiff (waveEdges w)) s))).length := by
      rw [npDiff_length, hcl]
      omega
    have hd2 : n < (npDiff (waveEdges w)).length := by
      rw [npDiff_length, hel]
      omega
    rw [elemDiv_get _ _ n h1 hd1 hd2,
      npDiff_get _ n hd1 (by rw [hcl]; omega) (by rw [hcl]; omega),
      npCumsum0_get _ (n + 1) (by rw [hcl]; omega) (by rw [hml]; omega),
      npCumsum0_get _ n (by rw [hcl]; omega) (by rw [hml]; omega),
      List.sum_take_succ _ n (by rw [hml]; omega)]
    have hmg : (elemMul (npDiff (waveEdges w)) s).get ⟨n, by omega⟩ =
        (npDiff (waveEdges w)).get ⟨n, hd2⟩ * s.get ⟨n, h2'⟩ := by
      rw [elemMul_get _ _ n (by omega) hd2 (by omega)]
    have hdpos : (0 : α) < (npDiff (waveEdges w)).get ⟨n, hd2⟩ :=
      npDiff_pos (waveEdges w) hpw _ (List.get_mem _ _ _)
    simp only [List.get_eq_getElem] at hmg hdpos ⊢
    rw [add_sub_cancel_left, hmg, mul_comm, mul_div_assoc, div_self (ne_of_gt hdpos), mul_one]

theorem headD_map {β γ : Type*} (f : β → γ) (l : List β) (hl : l ≠ []) (d : γ) (d2 : β) :
    (l.map f).headD d = f (l.headD d2) := by
  cases l with
  | nil => exact absurd rfl hl
  | cons a t => rfl

theorem getLastD_map {β γ : Type*} (f : β → γ) (l : List β) (hl : l ≠ []) (d : γ) (d2 : β) :
    (l.map f).getLastD d = f (l.getLastD d2) := by
  have hne : l.map f ≠ [] := by simpa using hl
  have h1 : 0 < l.length := List.length_pos.mpr hl
  rw [getLastD_eq_get (l.map f) hne d, getLastD_eq_get l hl d2,
    List.get_eq_getElem, List.get_eq_getElem, List.getElem_map]
  simp [List.length_map]

theorem fci_totalFlux (nw w s : List α) (hw2 : 2 ≤ w.length) (hnw2 : 2 ≤ nw.length)
    (hwp : w.Pairwise (· < ·)) (hnwp : nw.Pairwise (· < ·)) (hs : s.length = w.length)
    (hfirst : (waveEdges nw).headD 0 = (waveEdges w).headD 0)
    (hlast : (waveEdges nw).getLastD 0 = (waveEdges w).getLastD 0) :
    totalFlux (flux_conserving_interpolation nw w s) nw = totalFlux s w := by
  have hwne : w ≠ [] := by
    rw [← List.length_pos]
    omega
  have hnwne : nw ≠ [] := by
    rw [← List.length_pos]
    omega
  have hel : (waveEdges w).length = w.length + 1 := waveEdges_length w hwne
  have henl : (waveEdges nw).length = nw.length + 1 := waveEdges_length nw hnwne
  have hcl := cum_spectra_length w s hwne hs
  have hpw : (waveEdges w).Pairwise (· < ·) := waveEdges_pairwise w hw2 hwp
  have hpnw : (waveEdges nw).Pairwise (· < ·) := waveEdges_pairwise nw hnw2 hnwp
  have hml : (elemMul (npDiff (waveEdges w)) s).length = w.length := by
    rw [elemMul_length, npDiff_length, hel]
    omega
  have hEnne : waveEdges nw ≠ [] := waveEdges_ne_nil nw
  have hEne : waveEdges w ≠ [] := waveEdges_ne_nil w
  -- head of the interpolated cumulative spectrum
  have hFhead : ((waveEdges nw).map fun x =>
      npInterp x (waveEdges w) (npCumsum0 (elemMul (npDiff (waveEdges w)) s))).headD 0 = 0 := by
    rw [headD_map _ (waveEdges nw) hEnne 0 0, hfirst, headD_eq_get (waveEdges w) hEne 0,
      npInterp_node _ _ (by omega) hpw 0 (by omega) (by omega),
      npCumsum0_get _ 0 (by omega) (by omega)]
    simp
  -- last entry of the interpolated cumulative spectrum
  have hFlast : ((waveEdges nw).map fun x =>
      npInterp x (waveEdges w) (npCumsum0 (elemMul (npDiff (waveEdges w)) s))).getLastD 0 =
      (elemMul (npDiff (waveEdges w)) s).sum := by
    rw [getLastD_map _ (waveEdges nw) hEnne 0 0, hlast,
      getLastD_eq_get_of (waveEdges w) hEne 0 w.length (by omega) (by omega),
      npInterp_node _ _ (by omega) hpw w.length (by omega) (by omega),
      npCumsum0_get _ w.length (by omega) (by rw [hml]; omega),
      show w.length = (elemMul (npDiff (waveEdges w)) s).length from hml.symm,
      List.take_length]
  -- the total new flux telescopes
  have hcancel : elemMul (flux_conserving_interpolation nw w s) (npDiff (waveEdges nw)) =
      npDiff ((waveEdges nw).map fun x =>
        npInterp x (waveEdges w) (npCumsum0 (elemMul (npDiff (waveEdges w)) s))) := by
    rw [flux_conserving_interpolation_eq]
    apply elemMul_elemDiv_cancel
    · rw [npDiff_length, npDiff_length, List.length_map]
    · intro x hx
      exact ne_of_gt (npDiff_pos (waveEdges nw) hpnw x hx)
  rw [totalFlux, totalFlux, hcancel, npDiff_sum, hFhead, hFlast, sub_zero, elemMul_comm]

theorem interp1dAt_node (xp fp : List α) (hlen : xp.length = fp.length)
    (hmono : xp.Pairwise (· < ·)) (k : ℕ) (hk : k < xp.length) (hkf : k < fp.length) :
    interp1dAt xp fp (xp.get ⟨k, hk⟩) = fp.get ⟨k, hkf⟩ := by
  have hxne : xp ≠ [] := List.ne_nil_of_length_pos (by omega)
  have hg := List.pairwise_iff_getElem.mp hmono
  have hcond : ¬(xp.get ⟨k, hk⟩ < xp.headD 0 ∨ xp.getLastD 0 < xp.get ⟨k, hk⟩) := by
    push_neg
    constructor
    · rw [headD_eq_get xp hxne 0]
      rcases Nat.eq_zero_or_pos k with hk0 | hk0
      · subst hk0
        exact le_refl _
      · have := hg 0 k (by omega) (by omega) (by omega)
        simp only [List.get_eq_getElem]
        exact le_of_lt this
    · rw [getLastD_eq_get_of xp hxne 0 (xp.length - 1) (by omega) (by omega)]
      rcases Nat.lt_or_ge k (xp.length - 1) with hk1 | hk1
      · have := hg k (xp.length - 1) (by omega) (by omega) (by omega)
        simp only [List.get_eq_getElem]
        exact le_of_lt this
      · have hkeq : k = xp.length - 1 := by omega
        subst hkeq
        exact le_refl _
  rw [interp1dAt, if_neg hcond]
  exact npInterp_node xp fp hlen hmono k hk hkf

theorem get_response_curve_linear_eq (wave obs_spectra ref_spectra : List α) :
    get_response_curve_linear wave obs_spectra ref_spectra =
      interp1dAt wave (elemDiv (npDiff
        (((npCumsum (elemMul (elemDiv obs_spectra ref_spectra) (npDiff (waveEdges wave)))).headD 0 -
          ((npCumsum (elemMul (elemDiv obs_spectra ref_spectra)
              (npDiff (waveEdges wave)))).getD 1 0 -
            (npCumsum (elemMul (elemDiv obs_spectra ref_spectra)
              (npDiff (waveEdges wave)))).headD 0) / 2) ::
          npCumsum (elemMul (elemDiv obs_spectra ref_spectra) (npDiff (waveEdges wave)))))
        (npDiff (waveEdges wave))) := rfl

theorem elemDiv_npDiff_cons_get_succ (v : α) (C D : List α) (k : ℕ)
    (hk1 : k + 1 < C.length) (hD : k + 1 < D.length)
    (hb : k + 1 < (elemDiv (npDiff (v :: C)) D).length) :
    (elemDiv (npDiff (v :: C)) D).get ⟨k + 1, hb⟩ =
      (C.get ⟨k + 1, hk1⟩ - C.get ⟨k, by omega⟩) / D.get ⟨k + 1, hD⟩ := by
  rw [elemDiv_get _ _ (k + 1) hb (by rw [npDiff_length, List.length_cons]; omega) hD,
    npDiff_get _ (k + 1) (by rw [npDiff_length, List.length_cons]; omega)
      (by rw [List.length_cons]; omega) (by rw [List.length_cons]; omega),
    List.get_cons_succ, List.get_cons_succ]

theorem elemDiv_npDiff_cons_get_zero (v : α) (C D : List α)
    (hc : 0 < C.length) (hD : 0 < D.length)
    (hb : 0 < (elemDiv (npDiff (v :: C)) D).length) :
    (elemDiv (npDiff (v :: C)) D).get ⟨0, hb⟩ = (C.get ⟨0, hc⟩ - v) / D.get ⟨0, hD⟩ := by
  rw [elemDiv_get _ _ 0 hb (by rw [npDiff_length, List.length_cons]; omega) hD,
    npDiff_get _ 0 (by rw [npDiff_length, List.length_cons]; omega)
      (by rw [List.length_cons]; omega) (by rw [List.length_cons]; omega),
    List.get_cons_succ]
  rfl

theorem npCumsum_sub (M : List α) (k : ℕ) (hk : k + 1 < M.length)
    (h1 : k + 1 < (npCumsum M).length) (hb : k < (npCumsum M).length) :
    (npCumsum M).get ⟨k + 1, h1⟩ - (npCumsum M).get ⟨k, hb⟩ = M.get ⟨k + 1, hk⟩ := by
  rw [npCumsum_get M (k + 1) h1 (by omega), npCumsum_get M k hb (by omega),
    List.sum_take_succ M (k + 1) hk]
  simp only [List.get_eq_getElem]
  ring

theorem response_curve_node (wave obs ref : List α) (h2 : 2 ≤ wave.length)
    (hw : wave.Pairwise (· < ·)) (hobs : obs.length = wave.length)
    (href : ref.length = wave.length) :
    (∀ (k : ℕ) (hk1 : k + 1 < wave.length),
      get_response_curve_linear wave obs ref (wave.get ⟨k + 1, hk1⟩) =
        obs.get ⟨k + 1, by omega⟩ / ref.get ⟨k + 1, by omega⟩) ∧
    get_response_curve_linear wave obs ref (wave.get ⟨0, by omega⟩) =
      obs.get ⟨1, by omega⟩ / ref.get ⟨1, by omega⟩ *
        (npDiff (waveEdges wave)).get ⟨1, by
          rw [npDiff_length, waveEdges_length wave (by rw [← List.length_pos]; omega)]
          omega⟩ /
        (2 * (npDiff (waveEdges wave)).get ⟨0, by
          rw [npDiff_length, waveEdges_length wave (by rw [← List.length_pos]; omega)]
          omega⟩) := by
  have hwne : wave ≠ [] := by
    rw [← List.length_pos]
    omega
  have hDl : (npDiff (waveEdges wave)).length = wave.length := by
    rw [npDiff_length, waveEdges_length wave hwne]
    omega
  have hRl : (elemDiv obs ref).length = wave.length := by
    rw [elemDiv_length]
    omega
  have hMl : (elemMul (elemDiv obs ref) (npDiff (waveEdges wave))).length = wave.length := by
    rw [elemMul_length, hRl, hDl]
    omega
  have hCl : (npCumsum (elemMul (elemDiv obs ref) (npDiff (waveEdges wave)))).length =
      wave.length := by
    rw [npCumsum_length, hMl]
  have hpw : (waveEdges wave).Pairwise (· < ·) := waveEdges_pairwise wave h2 hw
  have hrl : ∀ v : α, (elemDiv (npDiff (v ::
      npCumsum (elemMul (elemDiv obs ref) (npDiff (waveEdges wave)))))
      (npDiff (waveEdges wave))).length = wave.length := by
    intro v
    rw [elemDiv_length, npDiff_length, List.length_cons, hCl, hDl]
    omega
  have hMget : ∀ (k : ℕ) (hk : k < wave.length),
      (elemMul (elemDiv obs ref) (npDiff (waveEdges wave))).get ⟨k, by omega⟩ =
        obs.get ⟨k, by omega⟩ / ref.get ⟨k, by omega⟩ *
          (npDiff (waveEdges wave)).get ⟨k, by omega⟩ := by
    intro k hk
    rw [elemMul_get _ _ k (by omega) (by omega) (by omega),
      elemDiv_get obs ref k (by omega) (by omega) (by omega)]
  constructor
  · intro k hk1
    rw [get_response_curve_linear_eq,
      interp1dAt_node wave _ ((hrl _).symm) hw (k + 1) hk1 (by rw [hrl]; omega),
      elemDiv_npDiff_cons_get_succ _ _ _ k (by omega) (by omega)
        (by rw [hrl]; omega),
      npCumsum_sub _ k (by omega) (by omega) (by omega), hMget (k + 1) hk1,
      mul_div_assoc, div_self, mul_one]
    exact ne_of_gt (npDiff_pos (waveEdges wave) hpw _ (List.get_mem _ _ _))
  · rw [get_response_curve_linear_eq,
      interp1dAt_node wave _ ((hrl _).symm) hw 0 (by omega) (by rw [hrl]; omega),
      elemDiv_npDiff_cons_get_zero _ _ _ (by omega) (by omega) (by rw [hrl]; omega),
      headD_eq_get _ (by rw [← List.length_pos, hCl]; omega) 0,
      List.getD_eq_get _ _ (by rw [hCl]; omega)]
    rw [show (npCumsum (elemMul (elemDiv obs ref) (npDiff (waveEdges wave)))).get
        ⟨0, by rw [hCl]; omega⟩ -
        ((npCumsum (elemMul (elemDiv obs ref) (npDiff (waveEdges wave)))).get
          ⟨0, by rw [hCl]; omega⟩ -
          ((npCumsum (elemMul (elemDiv obs ref) (npDiff (waveEdges wave)))).get
            ⟨1, by rw [hCl]; omega⟩ -
            (npCumsum (elemMul (elemDiv obs ref) (npDiff (waveEdges wave)))).get
              ⟨0, by rw [hCl]; omega⟩) / 2) =
        ((npCumsum (elemMul (elemDiv obs ref) (npDiff (waveEdges wave)))).get
          ⟨1, by rw [hCl]; omega⟩ -
          (npCumsum (elemMul (elemDiv obs ref) (npDiff (waveEdges wave)))).get
            ⟨0, by rw [hCl]; omega⟩) / 2 from by ring]
    rw [npCumsum_sub _ 0 (by omega) (by omega) (by omega), hMget 1 (by omega), div_div,
      mul_div_assoc, mul_comm 2 _, ← mul_div_assoc]

end NumpyLemmas

/-! ## Model-level lemmas -/

theorem pixArange_length (n : ℕ) : (pixArange n).length = n := by
  unfold pixArange
  rw [List.length_map, List.length_range]

theorem extinction_length (cw c wl : List ℝ) (am : ℝ) :
    (AtmosphericExtCorrection.extinction cw c wl am).length = wl.length := by
  simp [AtmosphericExtCorrection.extinction]

section SolarShiftLemmas

open scoped Classical

theorem npArgmax_isMax {n : ℕ} (hn : 0 < n) (v : Fin n → ℝ) (j : Fin n) :
    v j ≤ v (npArgmax hn v) := by
  have hmem : npArgmax hn v ∈ Finset.univ.filter fun k => ∀ i, v i ≤ v k :=
    Finset.min'_mem _ _
  rw [Finset.mem_filter] at hmem
  exact hmem.2 j

theorem likelihood_sum_one {ns nm nf : ℕ}
    (chi2 : Fin (ns + 1) → Fin (nm + 1) → Fin (nf + 1) → ℝ) (f : Fin (nf + 1)) :
    ∑ i, ∑ j, likelihood chi2 i j f = 1 := by
  have hpos : 0 < ∑ a, ∑ b, Real.exp (-(chi2 a b f - chi2Min chi2) / 2) := by
    apply Finset.sum_pos
    · intro a _
      apply Finset.sum_pos
      · intro b _
        exact Real.exp_pos _
      · exact Finset.univ_nonempty
    · exact Finset.univ_nonempty
  simp only [likelihood]
  simp only [← Finset.sum_div]
  exact div_self (ne_of_gt hpos)

theorem flat_index_lt {a b : ℕ} (i : Fin (a + 1)) (j : Fin (b + 1)) :
    (i : ℕ) * (b + 1) + (j : ℕ) < (a + 1) * (b + 1) := by
  calc (i : ℕ) * (b + 1) + (j : ℕ) < (i : ℕ) * (b + 1) + (b + 1) := by
        have := j.isLt
        omega
    _ = ((i : ℕ) + 1) * (b + 1) := by ring
    _ ≤ (a + 1) * (b + 1) := Nat.mul_le_mul_right _ (by have := i.isLt; omega)

theorem unravel_roundtrip {a b : ℕ} (i : Fin (a + 1)) (j : Fin (b + 1))
    (hb : (i : ℕ) * (b + 1) + (j : ℕ) < (a + 1) * (b + 1)) :
    unravelFst (⟨(i : ℕ) * (b + 1) + (j : ℕ), hb⟩ : Fin ((a + 1) * (b + 1))) = i ∧
    unravelSnd (⟨(i : ℕ) * (b + 1) + (j : ℕ), hb⟩ : Fin ((a + 1) * (b + 1))) = j := by
  constructor
  · apply Fin.ext
    show ((i : ℕ) * (b + 1) + (j : ℕ)) / (b + 1) = i
    rw [mul_comm, Nat.mul_add_div (Nat.succ_pos b), Nat.div_eq_of_lt j.isLt, add_zero]
  · apply Fin.ext
    show ((i : ℕ) * (b + 1) + (j : ℕ)) % (b + 1) = j
    rw [mul_comm, Nat.mul_add_mod, Nat.mod_eq_of_lt j.isLt]

theorem best_idx_isMax {ns nm nf : ℕ}
    (chi2 : Fin (ns + 1) → Fin (nm + 1) → Fin (nf + 1) → ℝ)
    (f : Fin (nf + 1)) (i : Fin (ns + 1)) (j : Fin (nm + 1)) :
    likelihood chi2 i j f ≤ likelihood chi2 (bestVelIdx chi2 f) (bestStdIdx chi2 f) f := by
  have hb := flat_index_lt i j
  have h := npArgmax_isMax (Nat.mul_pos (Nat.succ_pos ns) (Nat.succ_pos nm))
    (flatLikelihood chi2 f) ⟨(i : ℕ) * (nm + 1) + (j : ℕ), hb⟩
  obtain ⟨h1, h2⟩ := unravel_roundtrip i j hb
  simp only [flatLikelihood, h1, h2] at h
  exact h

end SolarShiftLemmas

/-! ## Claim theorems -/

/-- C3: `flux_conserving_interpolation` conserves flux: for every strictly
increasing wavelength grid `w` (length ≥ 2) and spectrum `s`, the total flux
`sum(s * bin_width)` is preserved whenever the new grid's outer bin edges
coincide with the old grid's outer bin edges, and interpolating onto the
identical grid returns the input spectrum unchanged. -/
theorem flux_conserving_interpolation_conserves (w s nw : List ℚ)
    (hw2 : 2 ≤ w.length) (hw : w.Pairwise (· < ·)) (hs : s.length = w.length)
    (hnw2 : 2 ≤ nw.length) (hnw : nw.Pairwise (· < ·))
    (hfirst : (waveEdges nw).headD 0 = (waveEdges w).headD 0)
    (hlast : (waveEdges nw).getLastD 0 = (waveEdges w).getLastD 0) :
    totalFlux (flux_conserving_interpolation nw w s) nw = totalFlux s w ∧
    flux_conserving_interpolation w w s = s :=
  ⟨fci_totalFlux nw w s hw2 hnw2 hw hnw hs hfirst hlast, fci_self w s hw2 hw hs⟩

/-- Witness for C3 at the concrete grids `w = [0,1,2]`, `s = [1,2,3]` and
`nw = [1/4, 7/4]` (same outer bin edges `-1/2` and `5/2`). -/
theorem flux_conserving_interpolation_conserves_witness :
    totalFlux (flux_conserving_interpolation [(1 : ℚ)/4, 7/4] [0, 1, 2] [1, 2, 3])
        [(1 : ℚ)/4, 7/4] = totalFlux [(1 : ℚ), 2, 3] [0, 1, 2] ∧
    flux_conserving_interpolation [(0 : ℚ), 1, 2] [0, 1, 2] [1, 2, 3] = [1, 2, 3] := by
  refine ⟨(flux_conserving_interpolation_conserves [0, 1, 2] [1, 2, 3] [(1 : ℚ)/4, 7/4]
      ?_ ?_ ?_ ?_ ?_ ?_ ?_).1,
    (flux_conserving_interpolation_conserves [0, 1, 2] [1, 2, 3] [(0 : ℚ), 1, 2]
      ?_ ?_ ?_ ?_ ?_ ?_ ?_).2⟩ <;>
    norm_num [List.pairwise_cons, waveEdges, npDiff, List.getLastD]

/-- C5 (code bug): when a chunk fit fails to converge, `scipy.optimize.curve_fit`
raises `RuntimeError`; the surrounding `except FitError` clause of
`extract_stellar_flux` does not catch it, so the escaping exception is
`RuntimeError`, not the `FitError` that the specification promises.  The dead
`except` branch would only convert a `FitError` into a `FitError`. -/
theorem extract_stellar_flux_nonconvergence_escape :
    fitChunkEscaping (curveFitNonConvergence : Except PyExc (List ℝ)) =
      Except.error PyExc.runtimeError ∧
    (Except.error PyExc.runtimeError : Except PyExc (List ℝ)) ≠
      Except.error PyExc.fitError ∧
    fitChunkEscaping (Except.error PyExc.fitError : Except PyExc (List ℝ)) =
      Except.error PyExc.fitError := by
  refine ⟨rfl, ?_, rfl⟩
  simp

/-- C7: `WavelengthOffset.tofits` writes an empty primary HDU followed by an
"OFFSET" HDU and an "OFFSET_ERR" HDU holding the offset data and error, and
`WavelengthOffset.from_fits` applied to that file recovers both arrays. -/
theorem wavelength_offset_fits_roundtrip (o : WavelengthOffsetModel) (outp p : String) :
    WavelengthOffset.tofits o (some outp) =
      Except.ok [primaryHDU,
        { extname := offsetHduName, data := o.offset_data },
        { extname := offsetErrHduName, data := o.offset_error }] ∧
    primaryHDU.data = none ∧
    offsetHduName = "OFFSET" ∧
    offsetErrHduName = "OFFSET_ERR" ∧
    (WavelengthOffset.from_fits [primaryHDU,
        { extname := offsetHduName, data := o.offset_data },
        { extname := offsetErrHduName, data := o.offset_error }] p).offset_data =
      o.offset_data ∧
    (WavelengthOffset.from_fits [primaryHDU,
        { extname := offsetHduName, data := o.offset_data },
        { extname := offsetErrHduName, data := o.offset_error }] p).offset_error =
      o.offset_error :=
  ⟨rfl, rfl, rfl, rfl, rfl, rfl⟩

/-- C8: after `compute_shift_from_twilight`, the stored offset holds one entry
per fibre in both `offset_data` and `offset_error`, with identical shapes. -/
theorem compute_shift_offset_paired {ns nm nf : ℕ}
    (chi2 : Fin (ns + 1) → Fin (nm + 1) → Fin (nf + 1) → ℝ)
    (pix_shift : Fin (ns + 1) → ℝ) (use_mean : Bool) :
    (compute_shift_from_twilight chi2 pix_shift use_mean).offset_data.length = nf + 1 ∧
    (compute_shift_from_twilight chi2 pix_shift use_mean).offset_error.length = nf + 1 ∧
    (compute_shift_from_twilight chi2 pix_shift use_mean).offset_error.length =
      (compute_shift_from_twilight chi2 pix_shift use_mean).offset_data.length := by
  cases use_mean <;>
    simp [compute_shift_from_twilight, npFullLikeNan, bestShiftArr, List.length_ofFn]

/-- C9: `compute_shift_from_twilight` always stores an all-NaN offset error
(`np.full_like(best_shift, np.nan)`), regardless of `use_mean` and of the
data, so the per-fibre uncertainty is never assigned a finite value. -/
theorem compute_shift_offset_error_all_nan {ns nm nf : ℕ}
    (chi2 : Fin (ns + 1) → Fin (nm + 1) → Fin (nf + 1) → ℝ)
    (pix_shift : Fin (ns + 1) → ℝ) (use_mean : Bool) :
    (compute_shift_from_twilight chi2 pix_shift use_mean).offset_error =
      List.replicate (nf + 1) PyVal.nan := by
  rw [List.eq_replicate_iff]
  constructor
  · simp [compute_shift_from_twilight, npFullLikeNan, bestShiftArr, List.length_ofFn]
  · intro b hb
    simp only [compute_shift_from_twilight, npFullLikeNan, List.mem_map] at hb
    obtain ⟨a, -, h⟩ := hb
    exact h.symm

/-- C1: the offsets stored by `compute_shift_from_twilight` come from
chi-square/likelihood weighting: the likelihood grid
`exp(-(chi2 - min chi2)/2)` is normalised so that each fibre's sum over the
whole `(shift, width)` grid is 1; with `use_mean=True` the per-fibre offset is
the negative of the likelihood-weighted mean of `pix_shift_array`, and with
`use_mean=False` it is the negative of the `pix_shift_array` entry at the grid
argmax of the likelihood for that fibre. -/
theorem compute_shift_offset_formula {ns nm nf : ℕ}
    (chi2 : Fin (ns + 1) → Fin (nm + 1) → Fin (nf + 1) → ℝ)
    (pix_shift : Fin (ns + 1) → ℝ) :
    (∀ f, ∑ i, ∑ j, likelihood chi2 i j f = 1) ∧
    (compute_shift_from_twilight chi2 pix_shift true).offset_data =
      (List.ofFn fun f => -(∑ i, (∑ j, likelihood chi2 i j f) * pix_shift i)) ∧
    (compute_shift_from_twilight chi2 pix_shift false).offset_data =
      (List.ofFn fun f => -(pix_shift (bestVelIdx chi2 f))) ∧
    (∀ f i j, likelihood chi2 i j f ≤
      likelihood chi2 (bestVelIdx chi2 f) (bestStdIdx chi2 f) f) :=
  ⟨likelihood_sum_one chi2, rfl, rfl, best_idx_isMax chi2⟩

/-- C4: `FluxCalibration.apply` raises `CalibrationError` if and only if the
container has already been flux-calibrated, and in that case the container is
left unchanged; otherwise no exception is raised, `intensity_corrected` is
divided entrywise by the response, `variance_corrected` by the squared
response, and the correction is recorded. -/
theorem flux_calibration_apply_guard (response : List ℚ) (dc : KDataContainer) :
    ((FluxCalibration.apply response dc).2 = some PyExc.calibrationError ↔
      dc.is_corrected fluxCalibrationName = true) ∧
    (dc.is_corrected fluxCalibrationName = true →
      (FluxCalibration.apply response dc).1 = dc) ∧
    (dc.is_corrected fluxCalibrationName = false →
      (FluxCalibration.apply response dc).2 = none ∧
      (FluxCalibration.apply response dc).1.wavelength = dc.wavelength ∧
      (FluxCalibration.apply response dc).1.corrections =
        dc.corrections ++ [fluxCalibrationName] ∧
      (∀ n m : ℕ, n < dc.intensity_corrected.length → n < response.length →
        m < (dc.intensity_corrected.getD n []).length →
        ((FluxCalibration.apply response dc).1.intensity_corrected.getD n []).getD m 0 =
          (dc.intensity_corrected.getD n []).getD m 0 / response.getD n 0) ∧
      (∀ n m : ℕ, n < dc.variance_corrected.length → n < response.length →
        m < (dc.variance_corrected.getD n []).length →
        ((FluxCalibration.apply response dc).1.variance_corrected.getD n []).getD m 0 =
          (dc.variance_corrected.getD n []).getD m 0 / response.getD n 0 ^ 2)) := by
  rcases Bool.eq_false_or_eq_true (dc.is_corrected fluxCalibrationName) with hb | hb
  case inl =>
    refine ⟨by simp [FluxCalibration.apply, hb], fun _ => by simp [FluxCalibration.apply, hb],
      fun hf => ?_⟩
    rw [hb] at hf
    exact absurd hf (by simp)
  case inr =>
    refine ⟨by simp [FluxCalibration.apply, hb], fun ht => ?_,
      fun _ => ⟨by simp [FluxCalibration.apply, hb], by simp [FluxCalibration.apply, hb],
        by simp [FluxCalibration.apply, hb], ?_, ?_⟩⟩
    · rw [hb] at ht
      exact absurd ht (by simp)
    · intro n m hn hr hm
      have hol : n < ((dc.intensity_corrected.zip response).map fun p =>
          p.1.map (· / p.2)).length := by
        rw [List.length_map, List.length_zip]
        omega
      rw [List.getD_eq_getElem dc.intensity_corrected [] hn] at hm
      simp only [FluxCalibration.apply, hb, Bool.false_eq_true, if_false]
      rw [List.getD_eq_getElem _ [] hol, List.getElem_map, List.getElem_zip]
      dsimp only
      rw [List.getD_eq_getElem _ 0 (by rw [List.length_map]; exact hm), List.getElem_map,
        List.getD_eq_getElem dc.intensity_corrected [] hn,
        List.getD_eq_getElem response 0 hr, List.getD_eq_getElem _ 0 hm]
    · intro n m hn hr hm
      have hol : n < ((dc.variance_corrected.zip response).map fun p =>
          p.1.map (· / p.2 ^ 2)).length := by
        rw [List.length_map, List.length_zip]
        omega
      rw [List.getD_eq_getElem dc.variance_corrected [] hn] at hm
      simp only [FluxCalibration.apply, hb, Bool.false_eq_true, if_false]
      rw [List.getD_eq_getElem _ [] hol, List.getElem_map, List.getElem_zip]
      dsimp only
      rw [List.getD_eq_getElem _ 0 (by rw [List.length_map]; exact hm), List.getElem_map,
        List.getD_eq_getElem dc.variance_corrected [] hn,
        List.getD_eq_getElem response 0 hr, List.getD_eq_getElem _ 0 hm]

/-- Witness for C4: a fresh container is calibrated without error and its
(0,0) intensity entry is divided by the response, while an already-calibrated
container is rejected and left unchanged. -/
theorem flux_calibration_apply_guard_witness :
    (FluxCalibration.apply [2, 2]
      { wavelength := [0, 1], intensity_corrected := [[2, 4], [6, 8]],
        variance_corrected := [[1, 1], [1, 1]], corrections := [] }).2 = none ∧
    ((FluxCalibration.apply [2, 2]
      { wavelength := [0, 1], intensity_corrected := [[2, 4], [6, 8]],
        variance_corrected := [[1, 1], [1, 1]],
        corrections := [] }).1.intensity_corrected.getD 0 []).getD 0 0 =
      (([[2, 4], [6, 8]] : List (List ℚ)).getD 0 []).getD 0 0 / ([2, 2] : List ℚ).getD 0 0 ∧
    (FluxCalibration.apply [2, 2]
      { wavelength := [0, 1], intensity_corrected := [[2, 4], [6, 8]],
        variance_corrected := [[1, 1], [1, 1]],
        corrections := [fluxCalibrationName] }).1 =
      { wavelength := [0, 1], intensity_corrected := [[2, 4], [6, 8]],
        variance_corrected := [[1, 1], [1, 1]], corrections := [fluxCalibrationName] } := by
  have h1 := flux_calibration_apply_guard [2, 2]
    { wavelength := [0, 1], intensity_corrected := [[2, 4], [6, 8]],
      variance_corrected := [[1, 1], [1, 1]], corrections := [] }
  have h2 := flux_calibration_apply_guard [2, 2]
    { wavelength := [0, 1], intensity_corrected := [[2, 4], [6, 8]],
      variance_corrected := [[1, 1], [1, 1]], corrections := [fluxCalibrationName] }
  exact ⟨(h1.2.2 rfl).1,
    (h1.2.2 rfl).2.2.2.1 0 0 (by norm_num) (by norm_num) (by norm_num),
    h2.2.1 rfl⟩

/-- C6: `WavelengthCorrection.apply`, `AtmosphericExtCorrection.apply` and
`FluxCalibration.apply` leave the container's wavelength array unchanged and
keep the shapes of the intensity and variance arrays equal to their input
shapes (so the wavelength-axis length keeps matching the spectral axis). -/
theorem corrections_preserve_container_shapes :
    (∀ (off : List ℚ) (rss : PRSS), 1 ≤ rss.wavelength.length →
      off.length = rss.intensity.length →
      (WavelengthCorrection.apply off rss).wavelength = rss.wavelength ∧
      (WavelengthCorrection.apply off rss).intensity.length = rss.intensity.length ∧
      (∀ row ∈ (WavelengthCorrection.apply off rss).intensity,
        row.length = rss.wavelength.length) ∧
      (WavelengthCorrection.apply off rss).variance = rss.variance) ∧
    (∀ (corr : AtmosphericExtCorrectionModel) (sc : AtmSpectraContainer)
      (airmass_arg : Option ℝ) (curve : List ℝ),
      corr.extinction_correction = some curve →
      (∀ row ∈ sc.rss_intensity, row.length = sc.wavelength.length) →
      (∀ row ∈ sc.rss_variance, row.length = sc.wavelength.length) →
      ∃ out, AtmosphericExtCorrection.apply corr sc airmass_arg = Except.ok out ∧
        out.wavelength = sc.wavelength ∧
        out.rss_intensity.length = sc.rss_intensity.length ∧
        (∀ row ∈ out.rss_intensity, row.length = sc.wavelength.length) ∧
        out.rss_variance.length = sc.rss_variance.length ∧
        (∀ row ∈ out.rss_variance, row.length = sc.wavelength.length)) ∧
    (∀ (resp : List ℚ) (dc : KDataContainer),
      resp.length = dc.intensity_corrected.length →
      resp.length = dc.variance_corrected.length →
      (FluxCalibration.apply resp dc).1.wavelength = dc.wavelength ∧
      (FluxCalibration.apply resp dc).1.intensity_corrected.length =
        dc.intensity_corrected.length ∧
      (∀ n : ℕ, ((FluxCalibration.apply resp dc).1.intensity_corrected.getD n []).length =
        (dc.intensity_corrected.getD n []).length) ∧
      (FluxCalibration.apply resp dc).1.variance_corrected.length =
        dc.variance_corrected.length ∧
      (∀ n : ℕ, ((FluxCalibration.apply resp dc).1.variance_corrected.getD n []).length =
        (dc.variance_corrected.getD n []).length)) := by
  refine ⟨?_, ?_, ?_⟩
  · intro off rss h1 hoff
    refine ⟨rfl, ?_, ?_, rfl⟩
    · simp only [WavelengthCorrection.apply, List.length_map, List.length_zip]
      omega
    · intro row hrow
      simp only [WavelengthCorrection.apply, List.mem_map] at hrow
      obtain ⟨p, hp, rfl⟩ := hrow
      rw [flux_conserving_interpolation_length _ _ _
        (by rw [← List.length_pos, pixArange_length]; omega), pixArange_length]
  · intro corr sc airmass_arg curve hcorr hirows hvrows
    refine ⟨{ sc with
        rss_intensity := sc.rss_intensity.map fun row => elemMul row
          (AtmosphericExtCorrection.extinction corr.extinction_correction_wave curve
            sc.wavelength (airmass_arg.getD sc.airmass)),
        rss_variance := sc.rss_variance.map fun row => elemMul row
          (elemMul (AtmosphericExtCorrection.extinction corr.extinction_correction_wave curve
              sc.wavelength (airmass_arg.getD sc.airmass))
            (AtmosphericExtCorrection.extinction corr.extinction_correction_wave curve
              sc.wavelength (airmass_arg.getD sc.airmass))),
        corrections := sc.corrections ++ [atmosphericExtName] },
      by simp only [AtmosphericExtCorrection.apply, hcorr], rfl, by
      simp only [List.length_map], ?_, by simp only [List.length_map], ?_⟩
    · intro row hrow
      simp only [List.mem_map] at hrow
      obtain ⟨r, hr, rfl⟩ := hrow
      rw [elemMul_length, extinction_length, hirows r hr]
      omega
    · intro row hrow
      simp only [List.mem_map] at hrow
      obtain ⟨r, hr, rfl⟩ := hrow
      rw [elemMul_length, elemMul_length, extinction_length, hvrows r hr]
      omega
  · intro resp dc hri hrv
    cases hb : dc.is_corrected fluxCalibrationName with
    | true => exact ⟨by simp [FluxCalibration.apply, hb], by simp [FluxCalibration.apply, hb],
        fun n => by simp [FluxCalibration.apply, hb], by simp [FluxCalibration.apply, hb],
        fun n => by simp [FluxCalibration.apply, hb]⟩
    | false =>
      have hleni : ((dc.intensity_corrected.zip resp).map fun p =>
          p.1.map (· / p.2)).length = dc.intensity_corrected.length := by
        rw [List.length_map, List.length_zip]
        omega
      have hlenv : ((dc.variance_corrected.zip resp).map fun p =>
          p.1.map (· / p.2 ^ 2)).length = dc.variance_corrected.length := by
        rw [List.length_map, List.length_zip]
        omega
      refine ⟨by simp [FluxCalibration.apply, hb], ?_, ?_, ?_, ?_⟩
      · simp only [FluxCalibration.apply, hb, Bool.false_eq_true, if_false]
        exact hleni
      · intro n
        simp only [FluxCalibration.apply, hb, Bool.false_eq_true, if_false]
        rcases Nat.lt_or_ge n dc.intensity_corrected.length with hlt | hge
        · rw [List.getD_eq_getElem _ [] (by omega : n < ((dc.intensity_corrected.zip
            resp).map fun p => p.1.map (· / p.2)).length)]
          rw [List.getElem_map, List.getElem_zip]
          dsimp only
          rw [List.length_map, List.getD_eq_getElem dc.intensity_corrected [] hlt]
        · rw [List.getD_eq_default _ [] (by omega), List.getD_eq_default _ [] (by omega)]
      · simp only [FluxCalibration.apply, hb, Bool.false_eq_true, if_false]
        exact hlenv
      · intro n
        simp only [FluxCalibration.apply, hb, Bool.false_eq_true, if_false]
        rcases Nat.lt_or_ge n dc.variance_corrected.length with hlt | hge
        · rw [List.getD_eq_getElem _ [] (by omega : n < ((dc.variance_corrected.zip
            resp).map fun p => p.1.map (· / p.2 ^ 2)).length)]
          rw [List.getElem_map, List.getElem_zip]
          dsimp only
          rw [List.length_map, List.getD_eq_getElem dc.variance_corrected [] hlt]
        · rw [List.getD_eq_default _ [] (by omega), List.getD_eq_default _ [] (by omega)]

/-- Witness for C6 on concrete containers for each of the three corrections. -/
theorem corrections_preserve_container_shapes_witness :
    ((WavelengthCorrection.apply [1/2]
      { wavelength := [0, 1], intensity := [[1, 2]], variance := [[1, 1]],
        corrections := [] } : PRSS).wavelength = [0, 1]) ∧
    (∃ out, AtmosphericExtCorrection.apply
        { extinction_correction := some [1, 1], extinction_correction_wave := [0, 1] }
        { wavelength := [0, 1], rss_intensity := [[1, 2]], rss_variance := [[1, 1]],
          airmass := 1, corrections := [] } none = Except.ok out ∧
      out.wavelength = [0, 1] ∧
      out.rss_intensity.length = 1 ∧
      (∀ row ∈ out.rss_intensity, row.length = 2) ∧
      out.rss_variance.length = 1 ∧
      (∀ row ∈ out.rss_variance, row.length = 2)) ∧
    ((FluxCalibration.apply [3, 3]
      { wavelength := [0, 1], intensity_corrected := [[2, 4], [6, 8]],
        variance_corrected := [[1, 1], [1, 1]],
        corrections := [] }).1.intensity_corrected.length = 2) := by
  refine ⟨(corrections_preserve_container_shapes.1 [1/2] _ (by norm_num) (by norm_num)).1, ?_, ?_⟩
  · have h := corrections_preserve_container_shapes.2.1
      { extinction_correction := some [1, 1], extinction_correction_wave := [0, 1] }
      { wavelength := [0, 1], rss_intensity := [[1, 2]], rss_variance := [[1, 1]],
        airmass := 1, corrections := [] } none [1, 1] rfl ?_ ?_
    · obtain ⟨out, h1, h2, h3, h4, h5, h6⟩ := h
      exact ⟨out, h1, h2, by simpa using h3, fun row hr => by simpa using h4 row hr,
        by simpa using h5, fun row hr => by simpa using h6 row hr⟩
    · intro row hrow
      simp only [List.mem_singleton] at hrow
      subst hrow
      rfl
    · intro row hrow
      simp only [List.mem_singleton] at hrow
      subst hrow
      rfl
  · exact ((corrections_preserve_container_shapes.2.2 [3, 3]
      { wavelength := [0, 1], intensity_corrected := [[2, 4], [6, 8]],
        variance_corrected := [[1, 1], [1, 1]], corrections := [] }
      (by norm_num) (by norm_num)).2.1).trans (by norm_num)

theorem beq_char_comm (a b : Char) : (a == b) = (b == a) := by
  cases h : (b == a) with
  | true =>
    rw [eq_of_beq h]
    simp
  | false =>
    exact beq_eq_false_iff_ne.mpr (Ne.symm (beq_eq_false_iff_ne.mp h))

/-- C10 counterexample: on the empty (non-None) name, `read_calibration_star`
raises `IndexError` from `name[0]` instead of building the key `"f"` and
raising `FileNotFoundError` as the claim predicts. -/
theorem read_calibration_star_empty_name :
    read_calibration_star [] [] = Except.error PyExc.indexError ∧
    normalize_star_name [] ≠ Except.ok [('f')] ∧
    (Except.error PyExc.indexError : Except PyExc (List Char)) ≠
      Except.error PyExc.fileNotFoundError := by
  refine ⟨rfl, ?_, by simp⟩
  simp [normalize_star_name, pyLower]

/-- C10 (corrected): for every non-empty name, the lookup key is the
lowercased name with `'f'` prepended whenever the lowercased name does not
start with `'f'` or contains the substring `'feige'`; a name whose lowercase
starts with `'feige'` already starts with `'f'` and still gets another `'f'`
prepended; and `FileNotFoundError` is raised when no available star matches
the resulting key. -/
theorem read_calibration_star_normalization (s : List Char) (avail : List (List Char))
    (hs : s ≠ []) :
    normalize_star_name s = Except.ok (specStarKey s) ∧
    (specStarKey s ∉ avail →
      read_calibration_star avail s = Except.error PyExc.fileNotFoundError) ∧
    (listStarts feigeChars (pyLower s) = true →
      specStarKey s = ('f') :: pyLower s ∧ listStarts [('f')] (pyLower s) = true) := by
  obtain ⟨c, rest, rfl⟩ : ∃ c rest, s = c :: rest := by
    cases s with
    | nil => exact absurd rfl hs
    | cons c rest => exact ⟨c, rest, rfl⟩
  have hcond : ((Char.toLower c) != ('f') ||
        hasSub feigeChars (Char.toLower c :: List.map Char.toLower rest)) =
      (!listStarts [('f')] (Char.toLower c :: List.map Char.toLower rest) ||
        hasSub feigeChars (Char.toLower c :: List.map Char.toLower rest)) := by
    have h1 : listStarts [('f')] (Char.toLower c :: List.map Char.toLower rest) =
        (('f') == Char.toLower c) := by
      simp [listStarts]
    rw [h1, beq_char_comm]
    rfl
  have hnorm : normalize_star_name (c :: rest) = Except.ok (specStarKey (c :: rest)) := by
    simp only [normalize_star_name, specStarKey, pyLower, List.map_cons]
    rw [← hcond]
    cases hb : ((Char.toLower c) != ('f') ||
        hasSub feigeChars (Char.toLower c :: List.map Char.toLower rest)) <;> simp [hb]
  refine ⟨hnorm, ?_, ?_⟩
  · intro hnot
    simp only [read_calibration_star, hnorm]
    rw [if_neg hnot]
  · intro hstart
    have hl : pyLower (c :: rest) = Char.toLower c :: List.map Char.toLower rest := rfl
    rw [hl] at hstart ⊢
    have hf : (('f') == Char.toLower c) = true := by
      simp only [feigeChars, listStarts, Bool.and_eq_true] at hstart
      exact hstart.1
    have hsub : hasSub feigeChars (Char.toLower c :: List.map Char.toLower rest) = true := by
      simp only [hasSub, Bool.or_eq_true]
      exact Or.inl hstart
    constructor
    · simp only [specStarKey, pyLower, List.map_cons]
      have h1 : listStarts [('f')] (Char.toLower c :: List.map Char.toLower rest) =
          (('f') == Char.toLower c) := by
        simp [listStarts]
      rw [h1, hf, hsub]
      simp
    · simp [listStarts, hf]

/-- Witness for C10 (corrected) at the concrete name `"Feige3"` with no
available stars: the key is the doubly-f-prefixed lowercase name and the
lookup fails with `FileNotFoundError`. -/
theorem read_calibration_star_normalization_witness :
    normalize_star_name ['F', 'e', 'i', 'g', 'e', '3'] =
      Except.ok (specStarKey ['F', 'e', 'i', 'g', 'e', '3']) ∧
    read_calibration_star [] ['F', 'e', 'i', 'g', 'e', '3'] =
      Except.error PyExc.fileNotFoundError := by
  have h := read_calibration_star_normalization ['F', 'e', 'i', 'g', 'e', '3'] []
    (by simp)
  exact ⟨h.1, h.2.1 (by simp)⟩

/-- C2 counterexample: with `wave = [0,1]`, `obs = [1,1]`, `ref = [1,1]` the
interpolator returned by the linear branch of `get_response_curve` evaluates
to `1/2` at the first wavelength point, not to the observed/reference ratio
`1/1 = 1`. -/
theorem response_curve_first_point_counterexample :
    get_response_curve_linear ([0, 1] : List ℚ) [1, 1] [1, 1] 0 = 1 / 2 ∧
    ((1 : ℚ) / 1) ≠ 1 / 2 := by
  constructor
  · norm_num [get_response_curve_linear, waveEdges, npDiff, npCumsum, npCumsum0, elemMul,
      elemDiv, interp1dAt, interpPts, List.scanl, List.getLastD, List.getD]
  · norm_num

/-- C2 (corrected): under the claim's hypotheses, the returned interpolator
equals the observed/reference flux ratio at every wavelength point except the
first; at the first point it equals the ratio at index 1 scaled by
`Δe₁ / (2 Δe₀)`, the neighbouring edge widths. -/
theorem get_response_curve_pointwise (wave obs_spectra ref_spectra : List ℚ)
    (h2 : 2 ≤ wave.length) (hw : wave.Pairwise (· < ·))
    (hobs : obs_spectra.length = wave.length) (href : ref_spectra.length = wave.length)
    (hobs_pos : ∀ x ∈ obs_spectra, 0 < x) (href_pos : ∀ x ∈ ref_spectra, 0 < x) :
    (∀ (k : ℕ) (hk1 : k + 1 < wave.length),
      get_response_curve_linear wave obs_spectra ref_spectra (wave.get ⟨k + 1, hk1⟩) =
        obs_spectra.get ⟨k + 1, by omega⟩ / ref_spectra.get ⟨k + 1, by omega⟩) ∧
    get_response_curve_linear wave obs_spectra ref_spectra (wave.get ⟨0, by omega⟩) =
      obs_spectra.get ⟨1, by omega⟩ / ref_spectra.get ⟨1, by omega⟩ *
        (npDiff (waveEdges wave)).get ⟨1, by
          rw [npDiff_length, waveEdges_length wave (by rw [← List.length_pos]; omega)]
          omega⟩ /
        (2 * (npDiff (waveEdges wave)).get ⟨0, by
          rw [npDiff_length, waveEdges_length wave (by rw [← List.length_pos]; omega)]
          omega⟩) :=
  response_curve_node wave obs_spectra ref_spectra h2 hw hobs href

/-- Witness for C2 (corrected) at `wave = [0,1,2]`, `obs = [2,3,4]`,
`ref = [1,1,1]`, index 1. -/
theorem get_response_curve_pointwise_witness :
    get_response_curve_linear ([0, 1, 2] : List ℚ) [2, 3, 4] [1, 1, 1]
        (([0, 1, 2] : List ℚ).get ⟨0 + 1, by norm_num⟩) =
      ([2, 3, 4] : List ℚ).get ⟨0 + 1, by norm_num⟩ /
        ([1, 1, 1] : List ℚ).get ⟨0 + 1, by norm_num⟩ :=
  (get_response_curve_pointwise [0, 1, 2] [2, 3, 4] [1, 1, 1] (by norm_num)
    (by norm_num [List.pairwise_cons]) (by norm_num) (by norm_num)
    (by intro x hx; simp only [List.mem_cons, List.not_mem_nil, or_false] at hx
        rcases hx with rfl | rfl | rfl <;> norm_num)
    (by intro x hx; simp only [List.mem_cons, List.not_mem_nil, or_false] at hx
        rcases hx with rfl | rfl | rfl <;> norm_num)).1 0 (by norm_num)

end PyKoala
